import Mathlib

/-!
Shallow embedding of the numerical image-transform engine of pygmi
(`pygmi/raster/cooper.py`): the visibility/exposure algorithm
(`visibility2d`, `__visible1`, `__visible2`) and the vertical-derivative /
tilt-angle computation (`vertical`, `tilt1`).  Machine floats are modelled by
exact arithmetic (`ℚ` for the visibility sweep, `ℝ` for the FFT/tilt
pipeline); numpy 2-D arrays are modelled by `Mat`.
-/

namespace Cooper

/-- A two-dimensional numpy-style array: explicit row and column counts
together with a total entry function.  Entries outside the stated bounds are
padding and never constrain any theorem. -/
structure Mat (α : Type) where
  rows : ℕ
  cols : ℕ
  entry : ℕ → ℕ → α

/-- Normalise one boundary of a python slice `a[lo:hi]` on an axis of length
`n`: a negative boundary counts from the end of the axis, and the result is
clamped into `[0, n]`. -/
def pyBound (n : ℕ) (a : ℤ) : ℕ :=
  if a < 0 then ((n : ℤ) + a).toNat else min n a.toNat

/-- Python basic slicing `A[r0:r1, c0:c1]` on both axes (used by
`visibility2d` for the border trim and the mask trim). -/
def Mat.slice {α : Type} (A : Mat α) (r0 r1 c0 c1 : ℤ) : Mat α :=
  ⟨pyBound A.rows r1 - pyBound A.rows r0,
   pyBound A.cols c1 - pyBound A.cols c0,
   fun i j => A.entry (pyBound A.rows r0 + i) (pyBound A.cols c0 + j)⟩

/-! ## The horizon sweep: `__visible1` and `__visible2` (cooper.py 419-449) -/

/-- One iteration of the scanning loop of `__visible1` (cooper.py 426-431):
the elevation angle of index `i`, `theta = (dat[i]-dat[cpn]-dh)/(i-cpn)`, is
compared with `>=` against the running maximum held in the accumulator
`(num, thetamax)`; on a tie or an increase the count and the maximum are both
updated. -/
def vis1Step (dat : List ℚ) (cpn : ℕ) (dh : ℚ) (acc : ℕ × ℚ) (i : ℕ) : ℕ × ℚ :=
  let theta := (dat.getD i 0 - dat.getD cpn 0 - dh) / ((i : ℚ) - (cpn : ℚ))
  if acc.2 ≤ theta then (acc.1 + 1, theta) else acc

/-- Model of `__visible1(dat, nr, cp, dh)` (cooper.py 419-433): the forward ray.
`num` starts at 1; when the guard `cp < nr-1 and dat.size > 0` holds it
becomes 2 (the step at index `cpn+1` is always counted) and the loop scans
indices `cpn+2 .. nr-1` with the running-maximum update of `vis1Step`.  The
initial `thetamax` is `dat[cpn+1]-dat[cpn]-dh` (the offset-1 angle, whose
divisor is 1). -/
def visible1 (dat : List ℚ) (nr cp : ℕ) (dh : ℚ) : ℕ :=
  if (cp : ℤ) < (nr : ℤ) - 1 ∧ 0 < dat.length then
    let cpn := cp - 1
    ((List.range' (cpn + 2) (nr - (cpn + 2))).foldl (vis1Step dat cpn dh)
      (2, dat.getD (cpn + 1) 0 - dat.getD cpn 0 - dh)).1
  else 1

/-- One iteration of the scanning loop of `__visible2` (cooper.py 443-447):
identical running-maximum update, with the angle of index `i < cpn` given by
`theta = (dat[i]-dat[cpn]-dh)/(cpn-i)`. -/
def vis2Step (dat : List ℚ) (cpn : ℕ) (dh : ℚ) (acc : ℕ × ℚ) (i : ℕ) : ℕ × ℚ :=
  let theta := (dat.getD i 0 - dat.getD cpn 0 - dh) / ((cpn : ℚ) - (i : ℚ))
  if acc.2 ≤ theta then (acc.1 + 1, theta) else acc

/-- Model of `__visible2(dat, cp, dh)` (cooper.py 436-449): the backward (mirrored)
ray.  `num` starts at 0; when the guard `cp > 2 and dat.size > 0` holds it
becomes 1 and the loop scans indices `cpn-2` down to `0` (python
`range(cpn-2, -1, -1)`). -/
def visible2 (dat : List ℚ) (cp : ℕ) (dh : ℚ) : ℕ :=
  if 2 < cp ∧ 0 < dat.length then
    let cpn := cp - 1
    (((List.range (cpn - 1)).reverse).foldl (vis2Step dat cpn dh)
      (1, dat.getD (cpn - 1) 0 - dat.getD cpn 0 - dh)).1
  else 0

/-! ## Spec-side naive re-scan of a single ray (claim C1)

The definitions below follow the spec's words, for the refinement claim: a
step at offset `k` from the center is visible iff its elevation angle is `≥`
the maximum angle over all closer steps, the prefix maximum being recomputed
from scratch at every step. -/

/-- Elevation angle of the step at offset `k ≥ 1` on the forward ray from
center index `cpn`: `theta(k) = (dat[cpn+k] - dat[cpn] - dh) / k`. -/
def rayTheta (dat : List ℚ) (cpn : ℕ) (dh : ℚ) (k : ℕ) : ℚ :=
  (dat.getD (cpn + k) 0 - dat.getD cpn 0 - dh) / (k : ℚ)

/-- Elevation angle of the step at offset `k ≥ 1` on the backward ray from
center index `cpn`: `theta(k) = (dat[cpn-k] - dat[cpn] - dh) / k`. -/
def backTheta (dat : List ℚ) (cpn : ℕ) (dh : ℚ) (k : ℕ) : ℚ :=
  (dat.getD (cpn - k) 0 - dat.getD cpn 0 - dh) / (k : ℚ)

/-- Maximum of the angles at offsets `1..k`, recomputed from scratch. -/
def scratchMax (f : ℕ → ℚ) (k : ℕ) : ℚ :=
  ((List.range' 2 (k - 1)).map f).foldl max (f 1)

/-- Naive visibility flag of the spec: the step at offset `k` is visible iff
its angle is `≥` the maximum angle over all closer steps (ties visible); the
step at offset 1 has no closer step and is unconditionally visible. -/
def specVis (f : ℕ → ℚ) (k : ℕ) : Bool :=
  if k ≤ 1 then true else decide (scratchMax f (k - 1) ≤ f k)

/-- Count of naively visible steps on a ray of `w` steps, center excluded. -/
def specCount (f : ℕ → ℚ) (w : ℕ) : ℕ :=
  (List.range' 1 w).countP (specVis f)

/-- Offset-indexed form of the running-maximum loop body shared by
`vis1Step` and `vis2Step`. -/
def horizonStep (f : ℕ → ℚ) (acc : ℕ × ℚ) (k : ℕ) : ℕ × ℚ :=
  if acc.2 ≤ f k then (acc.1 + 1, f k) else acc

lemma range'_two_concat (m : ℕ) :
    List.range' 2 (m + 1) = List.range' 2 m ++ [m + 2] := by
  simpa [Nat.add_comm] using @List.range'_concat 1 2 m

lemma scratchMax_succ (f : ℕ → ℚ) (m : ℕ) :
    scratchMax f (m + 2) = max (scratchMax f (m + 1)) (f (m + 2)) := by
  show ((List.range' 2 (m + 1)).map f).foldl max (f 1) = _
  rw [range'_two_concat, List.map_append, List.foldl_append]
  rfl

/-- The streaming running-maximum loop, started at count `c` and at the
offset-1 angle, computes both the naive count and the from-scratch prefix
maximum. -/
lemma horizonFold (f : ℕ → ℚ) (c m : ℕ) :
    (List.range' 2 m).foldl (horizonStep f) (c, f 1) =
      (c + (List.range' 2 m).countP (specVis f), scratchMax f (m + 1)) := by
  induction m with
  | zero => simp [scratchMax]
  | succ m ih =>
      rw [range'_two_concat, List.foldl_append, List.countP_append, ih]
      have hvis : specVis f (m + 2) = decide (scratchMax f (m + 1) ≤ f (m + 2)) := by
        simp [specVis]
      by_cases h : scratchMax f (m + 1) ≤ f (m + 2)
      · simp [horizonStep, h, hvis, scratchMax_succ, max_eq_right h, Nat.add_assoc]
      · simp [horizonStep, h, hvis, scratchMax_succ,
          max_eq_left (le_of_not_le h)]

lemma vis1Step_shift (dat : List ℚ) (w : ℕ) (dh : ℚ) (acc : ℕ × ℚ) (k : ℕ) :
    vis1Step dat w dh acc (w + k) = horizonStep (rayTheta dat w dh) acc k := by
  have hcast : ((w + k : ℕ) : ℚ) - (w : ℚ) = (k : ℚ) := by push_cast; ring
  simp [vis1Step, horizonStep, rayTheta, hcast]

lemma vis2Step_shift (dat : List ℚ) (w : ℕ) (dh : ℚ) (acc : ℕ × ℚ) (k : ℕ)
    (hk : k ≤ w) :
    vis2Step dat w dh acc (w - k) = horizonStep (backTheta dat w dh) acc k := by
  have hcast : (w : ℚ) - ((w - k : ℕ) : ℚ) = (k : ℚ) := by
    rw [Nat.cast_sub hk]; ring
  simp [vis2Step, horizonStep, backTheta, hcast]

lemma reverse_range_eq_map (m : ℕ) :
    (List.range m).reverse = (List.range' 2 m).map (fun k => m + 1 - k) := by
  induction m with
  | zero => rfl
  | succ m ih =>
      rw [List.range_succ, List.reverse_append, List.range'_succ,
        List.map_cons]
      have hshift : List.range' 3 m = (List.range' 2 m).map (fun x => 1 + x) :=
        (List.map_add_range' 1 2 m 1).symm
      have hmap : (List.range' 3 m).map (fun k => m + 1 + 1 - k) =
          (List.range' 2 m).map (fun k => m + 1 - k) := by
        rw [hshift, List.map_map]
        refine List.map_congr_left fun k _ => ?_
        simp [Function.comp]
        omega
      simp only [List.reverse_singleton, List.singleton_append, hmap, ih]
      norm_num
      omega

lemma visible1_eq_specCount (dat : List ℚ) (dh : ℚ) (w : ℕ) (hw : 2 ≤ w)
    (hlen : dat.length = 2 * w + 1) :
    visible1 dat (2 * w + 1) (w + 1) dh = 1 + specCount (rayTheta dat w dh) w := by
  have hguard : ((w + 1 : ℕ) : ℤ) < ((2 * w + 1 : ℕ) : ℤ) - 1 := by
    push_cast; omega
  have hpos : 0 < dat.length := by omega
  have hcpn : w + 1 - 1 = w := rfl
  rw [visible1, if_pos ⟨hguard, hpos⟩]
  simp only [hcpn]
  have hm : 2 * w + 1 - (w + 2) = w - 1 := by omega
  have hrange : List.range' (w + 2) (w - 1) =
      (List.range' 2 (w - 1)).map (fun x => w + x) :=
    (List.map_add_range' w 2 (w - 1) 1).symm
  rw [hm, hrange, List.foldl_map]
  have hstep : (List.range' 2 (w - 1)).foldl
      (fun acc k => vis1Step dat w dh acc (w + k))
      (2, dat.getD (w + 1) 0 - dat.getD w 0 - dh) =
      (List.range' 2 (w - 1)).foldl (horizonStep (rayTheta dat w dh))
      (2, dat.getD (w + 1) 0 - dat.getD w 0 - dh) :=
    List.foldl_ext _ _ _ fun acc k _ => vis1Step_shift dat w dh acc k
  rw [hstep]
  have hinit : dat.getD (w + 1) 0 - dat.getD w 0 - dh = rayTheta dat w dh 1 := by
    simp [rayTheta]
  rw [hinit, horizonFold]
  have hsplit : List.range' 1 w = 1 :: List.range' 2 (w - 1) := by
    conv_lhs => rw [show w = (w - 1) + 1 by omega]
    rw [List.range'_succ]
  rw [specCount, hsplit, List.countP_cons]
  have h1 : specVis (rayTheta dat w dh) 1 = true := by simp [specVis]
  simp [h1]
  omega

lemma visible2_eq_specCount (dat : List ℚ) (dh : ℚ) (w : ℕ) (hw : 2 ≤ w)
    (hlen : dat.length = 2 * w + 1) :
    visible2 dat (w + 1) dh = specCount (backTheta dat w dh) w := by
  have hguard : 2 < w + 1 := by omega
  have hpos : 0 < dat.length := by omega
  rw [visible2, if_pos ⟨hguard, hpos⟩]
  simp only [Nat.add_sub_cancel]
  have hrev : (List.range (w - 1)).reverse =
      (List.range' 2 (w - 1)).map (fun k => w - k) := by
    rw [reverse_range_eq_map]
    refine List.map_congr_left fun k _ => ?_
    omega
  rw [hrev, List.foldl_map]
  have hstep : (List.range' 2 (w - 1)).foldl
      (fun acc k => vis2Step dat w dh acc (w - k))
      (1, dat.getD (w - 1) 0 - dat.getD w 0 - dh) =
      (List.range' 2 (w - 1)).foldl (horizonStep (backTheta dat w dh))
      (1, dat.getD (w - 1) 0 - dat.getD w 0 - dh) := by
    refine List.foldl_ext _ _ _ fun acc k hk => ?_
    have : k ≤ w := by
      rcases List.mem_range'.1 hk with ⟨i, hi, rfl⟩
      omega
    exact vis2Step_shift dat w dh acc k this
  rw [hstep]
  have hinit : dat.getD (w - 1) 0 - dat.getD w 0 - dh = backTheta dat w dh 1 := by
    simp [backTheta]
  rw [hinit, horizonFold]
  have hsplit : List.range' 1 w = 1 :: List.range' 2 (w - 1) := by
    conv_lhs => rw [show w = (w - 1) + 1 by omega]
    rw [List.range'_succ]
  rw [specCount, hsplit, List.countP_cons]
  have h1 : specVis (backTheta dat w dh) 1 = true := by simp [specVis]
  simp [h1]
  omega

/-- C1 (amended): for every data window of an odd size `2w+1` with `w ≥ 2`
(so that the guards `cp < nr-1` resp. `cp > 2` of `__visible1`/`__visible2`
pass), the streaming running-maximum count of a ray equals the count of the
naive re-scan that recomputes the prefix maximum of the angle sequence from
scratch at every step, a step being visible iff its angle is `≥` the maximum
over all closer steps with ties visible.  `__visible1` additionally counts a
baseline of 1 (its `num` starts at 1 before the always-visible offset-1
step), while `__visible2` counts exactly the visible steps.  For `w = 1`
(window size 3) the guards fail and the equivalence breaks, see the
counterexample. -/
theorem visibility_ray_refinement (dat : List ℚ) (dh : ℚ) (w : ℕ) (hw : 2 ≤ w)
    (hlen : dat.length = 2 * w + 1) :
    visible1 dat (2 * w + 1) (w + 1) dh = 1 + specCount (rayTheta dat w dh) w ∧
    visible2 dat (w + 1) dh = specCount (backTheta dat w dh) w :=
  ⟨visible1_eq_specCount dat dh w hw hlen, visible2_eq_specCount dat dh w hw hlen⟩

/-- Witness for `visibility_ray_refinement` at the concrete window
`[0, 3, 1, 2, 0]` with `w = 2`, `dh = 0`. -/
theorem visibility_ray_refinement_witness :
    visible1 [0, 3, 1, 2, 0] (2 * 2 + 1) (2 + 1) 0 =
      1 + specCount (rayTheta [0, 3, 1, 2, 0] 2 0) 2 ∧
    visible2 [0, 3, 1, 2, 0] (2 + 1) 0 =
      specCount (backTheta [0, 3, 1, 2, 0] 2 0) 2 :=
  visibility_ray_refinement [0, 3, 1, 2, 0] 0 2 (by decide) (by decide)

/-! ## Maximal ray counts and constant windows (claim C3) -/

/-- Largest value `__visible1` can return on a sweep window of size `2w+1`
(center `cp = w+1`): the baseline 2 plus the `w-1` loop steps when the guard
passes, and the constant 1 otherwise. -/
def maxVis1 (w : ℕ) : ℕ := if 2 ≤ w then w + 1 else 1

/-- Largest value `__visible2` can return on a sweep window of size `2w+1`:
the baseline 1 plus the `w-1` loop steps when the guard passes, and the
constant 0 otherwise. -/
def maxVis2 (w : ℕ) : ℕ := if 2 ≤ w then w else 0

lemma foldl_count_le (g : ℕ × ℚ → ℕ → ℕ × ℚ)
    (hg : ∀ acc i, (g acc i).1 ≤ acc.1 + 1) (l : List ℕ) (acc : ℕ × ℚ) :
    (l.foldl g acc).1 ≤ acc.1 + l.length := by
  induction l generalizing acc with
  | nil => simp
  | cons x xs ih =>
      calc (xs.foldl g (g acc x)).1 ≤ (g acc x).1 + xs.length := ih _
        _ ≤ acc.1 + 1 + xs.length := by have := hg acc x; omega
        _ ≤ acc.1 + (x :: xs).length := by simp [List.length_cons]; omega

lemma vis1Step_fst_le (dat : List ℚ) (cpn : ℕ) (dh : ℚ) (acc : ℕ × ℚ) (i : ℕ) :
    (vis1Step dat cpn dh acc i).1 ≤ acc.1 + 1 := by
  simp only [vis1Step]
  split <;> simp

lemma vis2Step_fst_le (dat : List ℚ) (cpn : ℕ) (dh : ℚ) (acc : ℕ × ℚ) (i : ℕ) :
    (vis2Step dat cpn dh acc i).1 ≤ acc.1 + 1 := by
  simp only [vis2Step]
  split <;> simp

/-- Whatever the data, `__visible1` on a sweep window of size `2w+1` is at
most `maxVis1 w`. -/
lemma visible1_le (dat : List ℚ) (dh : ℚ) (w : ℕ) :
    visible1 dat (2 * w + 1) (w + 1) dh ≤ maxVis1 w := by
  by_cases h : ((w + 1 : ℕ) : ℤ) < ((2 * w + 1 : ℕ) : ℤ) - 1 ∧ 0 < dat.length
  · have hw : 2 ≤ w := by
      have := h.1
      push_cast at this
      omega
    rw [visible1, if_pos h, maxVis1, if_pos hw]
    calc ((List.range' (w + 1 - 1 + 2) (2 * w + 1 - (w + 1 - 1 + 2))).foldl
          (vis1Step dat (w + 1 - 1) dh)
          (2, dat.getD (w + 1 - 1 + 1) 0 - dat.getD (w + 1 - 1) 0 - dh)).1 ≤
        2 + (List.range' (w + 1 - 1 + 2) (2 * w + 1 - (w + 1 - 1 + 2))).length :=
          foldl_count_le _ (vis1Step_fst_le dat _ dh) _ _
      _ ≤ w + 1 := by simp [List.length_range']; omega
  · rw [visible1, if_neg h, maxVis1]
    split <;> omega

/-- Whatever the data, `__visible2` on a sweep window of size `2w+1` is at
most `maxVis2 w`. -/
lemma visible2_le (dat : List ℚ) (dh : ℚ) (w : ℕ) :
    visible2 dat (w + 1) dh ≤ maxVis2 w := by
  by_cases h : 2 < w + 1 ∧ 0 < dat.length
  · have hw : 2 ≤ w := by omega
    rw [visible2, if_pos h, maxVis2, if_pos hw]
    calc (((List.range (w + 1 - 1 - 1)).reverse).foldl
          (vis2Step dat (w + 1 - 1) dh)
          (1, dat.getD (w + 1 - 1 - 1) 0 - dat.getD (w + 1 - 1) 0 - dh)).1 ≤
        1 + ((List.range (w + 1 - 1 - 1)).reverse).length :=
          foldl_count_le _ (vis2Step_fst_le dat _ dh) _ _
      _ ≤ w := by simp [List.length_reverse]; omega
  · rw [visible2, if_neg h, maxVis2]
    split <;> omega

lemma getD_replicate (n i : ℕ) (c : ℚ) (h : i < n) :
    (List.replicate n c).getD i 0 = c := by
  simp [List.getD, List.getElem?_replicate, h]

lemma rayTheta_const (c : ℚ) (w k : ℕ) (hk : k ≤ w) :
    rayTheta (List.replicate (2 * w + 1) c) w 0 k = 0 := by
  rw [rayTheta, getD_replicate _ _ _ (by omega), getD_replicate _ _ _ (by omega)]
  simp

lemma backTheta_const (c : ℚ) (w k : ℕ) :
    backTheta (List.replicate (2 * w + 1) c) w 0 k = 0 := by
  rw [backTheta, getD_replicate _ _ _ (by omega), getD_replicate _ _ _ (by omega)]
  simp

lemma foldl_max_listzero (l : List ℚ) (hl : ∀ x ∈ l, x = 0) :
    l.foldl max 0 = 0 := by
  induction l with
  | nil => rfl
  | cons x xs ih =>
      have hx : x = 0 := hl x (by simp)
      simp only [List.foldl_cons, hx, max_self]
      exact ih fun y hy => hl y (by simp [hy])

lemma scratchMax_zero (f : ℕ → ℚ) (k : ℕ) (hk : 1 ≤ k)
    (hf : ∀ j, 1 ≤ j → j ≤ k → f j = 0) :
    scratchMax f k = 0 := by
  rw [scratchMax, hf 1 (by omega) (by omega)]
  · refine foldl_max_listzero _ fun x hx => ?_
    rcases List.mem_map.1 hx with ⟨j, hj, rfl⟩
    rcases List.mem_range'.1 hj with ⟨i, hi, rfl⟩
    exact hf _ (by omega) (by omega)

/-- On an all-zero angle sequence every step of the ray is visible. -/
lemma specCount_zero (f : ℕ → ℚ) (w : ℕ) (hf : ∀ j, 1 ≤ j → j ≤ w → f j = 0) :
    specCount f w = w := by
  rw [specCount]
  have : ∀ k ∈ List.range' 1 w, specVis f k = true := by
    intro k hk
    rcases List.mem_range'.1 hk with ⟨i, hi, rfl⟩
    by_cases hk2 : 1 + 1 * i ≤ 1
    · rw [specVis, if_pos hk2]
    · rw [specVis, if_neg hk2]
      have h1 : scratchMax f (1 + 1 * i - 1) = 0 := by
        rw [show 1 + 1 * i - 1 = i by omega]
        exact scratchMax_zero f i (by omega) fun j hj1 hj2 => hf j hj1 (by omega)
      rw [h1, hf (1 + 1 * i) (by omega) (by omega)]
      simp
  rw [List.countP_eq_length.2 this, List.length_range']

/-- On a constant window with `dh = 0`, `__visible1` attains its maximum. -/
lemma visible1_const (c : ℚ) (w : ℕ) :
    visible1 (List.replicate (2 * w + 1) c) (2 * w + 1) (w + 1) 0 = maxVis1 w := by
  rcases le_or_lt 2 w with hw | hw
  · rw [visible1_eq_specCount _ _ _ hw (by simp),
      specCount_zero _ _ fun j h1 h2 => rayTheta_const c w j h2,
      maxVis1, if_pos hw]
    omega
  · rw [visible1, if_neg, maxVis1, if_neg (by omega)]
    rintro ⟨h1, -⟩
    push_cast at h1
    omega

/-- On a constant window with `dh = 0`, `__visible2` attains its maximum. -/
lemma visible2_const (c : ℚ) (w : ℕ) :
    visible2 (List.replicate (2 * w + 1) c) (w + 1) 0 = maxVis2 w := by
  rcases le_or_lt 2 w with hw | hw
  · rw [visible2_eq_specCount _ _ _ hw (by simp),
      specCount_zero _ _ fun j h1 h2 => backTheta_const c w j,
      maxVis2, if_pos hw]
  · rw [visible2, if_neg, maxVis2, if_neg (by omega)]
    rintro ⟨h1, -⟩
    omega

/-! ## The full sweep `visibility2d` (cooper.py 324-416) -/

/-- Mean of the unmasked cells (`data.mean()` on the numpy masked array,
cooper.py 361).  For a fully masked grid the count is 0 and the division
yields the Lean convention 0. -/
def maskedMean (v : Mat ℚ) (m : Mat Bool) : ℚ :=
  (∑ i in Finset.range v.rows, ∑ j in Finset.range v.cols,
    if m.entry i j then 0 else v.entry i j) /
  ((∑ i in Finset.range v.rows, ∑ j in Finset.range v.cols,
    if m.entry i j then 0 else 1 : ℕ) : ℚ)

/-- State of the caller's underlying values buffer after
`data = data.data; data[mask] = mean` (cooper.py 362-363): every masked cell
now holds `mean`, every other cell is untouched. -/
def fillMasked (v : Mat ℚ) (m : Mat Bool) (mean : ℚ) : Mat ℚ :=
  ⟨v.rows, v.cols, fun i j => if m.entry i j then mean else v.entry i j⟩

/-- The window `data[i-w2:i+w2+1, j]` of the column sweep (cooper.py 367). -/
def colWindow (d : Mat ℚ) (w2 i j : ℕ) : List ℚ :=
  (List.range (2 * w2 + 1)).map fun k => d.entry (i - w2 + k) j

/-- The window `data[i, j-w2:j+w2+1]` of the row sweep (cooper.py 373). -/
def rowWindow (d : Mat ℚ) (w2 i j : ℕ) : List ℚ :=
  (List.range (2 * w2 + 1)).map fun k => d.entry i (j - w2 + k)

/-- The first diagonal window `dtmp[k] = data[i-w2+k, j-w2+k]`
(cooper.py 379-381). -/
def diag1Window (d : Mat ℚ) (w2 i j : ℕ) : List ℚ :=
  (List.range (2 * w2 + 1)).map fun k => d.entry (i - w2 + k) (j - w2 + k)

/-- The second diagonal window `dtmp[k] = data[i+w2-k, j-w2+k]`
(cooper.py 384-386). -/
def diag2Window (d : Mat ℚ) (w2 i j : ℕ) : List ℚ :=
  (List.range (2 * w2 + 1)).map fun k => d.entry (i + w2 - k) (j - w2 + k)

/-- The array `vn` after the column loop (cooper.py 365-368): written at
`w2 ≤ i < nr-w2` for every `j < nc`, zero elsewhere. -/
def vnMat (d : Mat ℚ) (wsize : ℕ) (dh : ℚ) : Mat ℚ :=
  let w2 := wsize / 2
  ⟨d.rows, d.cols, fun i j =>
    if w2 ≤ i ∧ i < d.rows - w2 ∧ j < d.cols then
      (visible1 (colWindow d w2 i j) wsize (w2 + 1) dh : ℚ)
    else 0⟩

/-- The array `vs` after the column loop (cooper.py 365-369). -/
def vsMat (d : Mat ℚ) (wsize : ℕ) (dh : ℚ) : Mat ℚ :=
  let w2 := wsize / 2
  ⟨d.rows, d.cols, fun i j =>
    if w2 ≤ i ∧ i < d.rows - w2 ∧ j < d.cols then
      (visible2 (colWindow d w2 i j) (w2 + 1) dh : ℚ)
    else 0⟩

/-- The array `ve` after the row loop (cooper.py 371-374): written at
`w2 ≤ j < nc-w2` for every `i < nr`, zero elsewhere. -/
def veMat (d : Mat ℚ) (wsize : ℕ) (dh : ℚ) : Mat ℚ :=
  let w2 := wsize / 2
  ⟨d.rows, d.cols, fun i j =>
    if w2 ≤ j ∧ j < d.cols - w2 ∧ i < d.rows then
      (visible1 (rowWindow d w2 i j) wsize (w2 + 1) dh : ℚ)
    else 0⟩

/-- The array `vw` after the row loop (cooper.py 371-375). -/
def vwMat (d : Mat ℚ) (wsize : ℕ) (dh : ℚ) : Mat ℚ :=
  let w2 := wsize / 2
  ⟨d.rows, d.cols, fun i j =>
    if w2 ≤ j ∧ j < d.cols - w2 ∧ i < d.rows then
      (visible2 (rowWindow d w2 i j) (w2 + 1) dh : ℚ)
    else 0⟩

/-- The arrays `vd1`-`vd4` of the diagonal loops (cooper.py 377-388):
written on the interior in both axes, zero elsewhere. -/
def vd1Mat (d : Mat ℚ) (wsize : ℕ) (dh : ℚ) : Mat ℚ :=
  let w2 := wsize / 2
  ⟨d.rows, d.cols, fun i j =>
    if w2 ≤ i ∧ i < d.rows - w2 ∧ w2 ≤ j ∧ j < d.cols - w2 then
      (visible1 (diag1Window d w2 i j) wsize (w2 + 1) dh : ℚ)
    else 0⟩

/-- See `vd1Mat`. -/
def vd2Mat (d : Mat ℚ) (wsize : ℕ) (dh : ℚ) : Mat ℚ :=
  let w2 := wsize / 2
  ⟨d.rows, d.cols, fun i j =>
    if w2 ≤ i ∧ i < d.rows - w2 ∧ w2 ≤ j ∧ j < d.cols - w2 then
      (visible2 (diag1Window d w2 i j) (w2 + 1) dh : ℚ)
    else 0⟩

/-- See `vd1Mat`. -/
def vd3Mat (d : Mat ℚ) (wsize : ℕ) (dh : ℚ) : Mat ℚ :=
  let w2 := wsize / 2
  ⟨d.rows, d.cols, fun i j =>
    if w2 ≤ i ∧ i < d.rows - w2 ∧ w2 ≤ j ∧ j < d.cols - w2 then
      (visible1 (diag2Window d w2 i j) wsize (w2 + 1) dh : ℚ)
    else 0⟩

/-- See `vd1Mat`. -/
def vd4Mat (d : Mat ℚ) (wsize : ℕ) (dh : ℚ) : Mat ℚ :=
  let w2 := wsize / 2
  ⟨d.rows, d.cols, fun i j =>
    if w2 ≤ i ∧ i < d.rows - w2 ∧ w2 ≤ j ∧ j < d.cols - w2 then
      (visible2 (diag2Window d w2 i j) (w2 + 1) dh : ℚ)
    else 0⟩

/-- The eight directional counts at one cell, in the order of the list
`[vn, vs, ve, vw, vd1, vd2, vd3, vd4]` fed to `np.std` (cooper.py 395-397). -/
def dirCounts (d : Mat ℚ) (wsize : ℕ) (dh : ℚ) (i j : ℕ) : Fin 8 → ℚ :=
  ![(vnMat d wsize dh).entry i j, (vsMat d wsize dh).entry i j,
    (veMat d wsize dh).entry i j, (vwMat d wsize dh).entry i j,
    (vd1Mat d wsize dh).entry i j, (vd2Mat d wsize dh).entry i j,
    (vd3Mat d wsize dh).entry i j, (vd4Mat d wsize dh).entry i j]

/-- Array `vtot = vn+vs+ve+vw+vd1+vd2+vd3+vd4` before the trim (cooper.py 390). -/
def vtotFull (d : Mat ℚ) (wsize : ℕ) (dh : ℚ) : Mat ℚ :=
  ⟨d.rows, d.cols, fun i j => ∑ k, dirCounts d wsize dh i j k⟩

/-- Sample mean of the eight directional counts. -/
def mean8 (x : Fin 8 → ℚ) : ℚ := (∑ k, x k) / 8

/-- Sample variance with `ddof=1` of the eight directional counts. -/
def var8 (x : Fin 8 → ℚ) : ℚ := (∑ k, (x k - mean8 x) ^ 2) / 7

/-- Model of `np.std([...], ddof=1)` over the eight directional counts. -/
noncomputable def std8 (x : Fin 8 → ℚ) : ℝ := Real.sqrt ((var8 x : ℚ) : ℝ)

/-- The array `vstd` before the trim (cooper.py 393-397). -/
noncomputable def vstdFull (d : Mat ℚ) (wsize : ℕ) (dh : ℚ) : Mat ℝ :=
  ⟨d.rows, d.cols, fun i j => std8 (dirCounts d wsize dh i j)⟩

/-- Constant `np.cos(45*dtr)` with `dtr = pi/180` (cooper.py 401-403). -/
noncomputable def c45 : ℝ := Real.cos (45 * (Real.pi / 180))

/-- Constant `np.sin(45*dtr)` with `dtr = pi/180` (cooper.py 401-404). -/
noncomputable def s45 : ℝ := Real.sin (45 * (Real.pi / 180))

/-- The array `vsum = sqrt(vsumx²+vsumy²)` before the trim
(cooper.py 404-406). -/
noncomputable def vsumFull (d : Mat ℚ) (wsize : ℕ) (dh : ℚ) : Mat ℝ :=
  ⟨d.rows, d.cols, fun i j =>
    let x : ℝ := ((veMat d wsize dh).entry i j : ℚ) -
      ((vwMat d wsize dh).entry i j : ℚ) +
      ((vd1Mat d wsize dh).entry i j : ℚ) * c45 -
      ((vd2Mat d wsize dh).entry i j : ℚ) * c45 +
      ((vd3Mat d wsize dh).entry i j : ℚ) * c45 -
      ((vd4Mat d wsize dh).entry i j : ℚ) * c45
    let y : ℝ := ((vnMat d wsize dh).entry i j : ℚ) -
      ((vsMat d wsize dh).entry i j : ℚ) +
      ((vd1Mat d wsize dh).entry i j : ℚ) * s45 -
      ((vd2Mat d wsize dh).entry i j : ℚ) * s45 -
      ((vd3Mat d wsize dh).entry i j : ℚ) * s45 +
      ((vd4Mat d wsize dh).entry i j : ℚ) * s45
    Real.sqrt (x * x + y * y)⟩

/-- The five arrays a call of `visibility2d` leaves behind: the three trimmed
outputs, the mask attached to each of them, and the caller's values buffer
after the call. -/
structure VisResult where
  vtot : Mat ℚ
  vstd : Mat ℝ
  vsum : Mat ℝ
  outMask : Mat Bool
  dataAfter : Mat ℚ

/-- Model of `visibility2d(data, wsize, dh)` (cooper.py 324-416).  The three outputs
are trimmed by `[w2:nr-w2, w2:nc-w2]` and each carries the mask
`mask[w2:-w2, w2:-w2]`.  `dataAfter` records the caller's underlying values
buffer when the call returns: line 362 rebinds `data` to the caller's raw
array (`data = data.data` is a view, not a copy) and line 363 writes the
global unmasked mean into it at every masked cell. -/
noncomputable def visibility2d (v : Mat ℚ) (m : Mat Bool) (wsize : ℕ) (dh : ℚ) :
    VisResult :=
  let w2 := wsize / 2
  let d := fillMasked v m (maskedMean v m)
  { vtot := (vtotFull d wsize dh).slice w2 ((v.rows : ℤ) - w2) w2 ((v.cols : ℤ) - w2)
    vstd := (vstdFull d wsize dh).slice w2 ((v.rows : ℤ) - w2) w2 ((v.cols : ℤ) - w2)
    vsum := (vsumFull d wsize dh).slice w2 ((v.rows : ℤ) - w2) w2 ((v.cols : ℤ) - w2)
    outMask := m.slice w2 (-(w2 : ℤ)) w2 (-(w2 : ℤ))
    dataAfter := d }

/-- C1 counterexample: at window size 3 (`nr = 3`, `cp = 2`) the guard of
`__visible1` fails and the function returns 1 without examining the ray,
while the naive re-scan of the claim counts the offset-1 step (whose angle is
trivially `≥` the empty prefix maximum) and yields 2. -/
theorem visibility_ray_refinement_cex :
    visible1 [0, 0, 0] 3 2 0 = 1 ∧
    1 + specCount (rayTheta [0, 0, 0] 1 0) 1 = 2 := by
  constructor
  · rfl
  · decide


/-! ## Slice arithmetic helpers -/

lemma pyBound_lo (n w : ℕ) (h : w ≤ n) : pyBound n (w : ℤ) = w := by
  rw [pyBound]
  split <;> omega

lemma pyBound_hi (n w : ℕ) (h : w ≤ n) : pyBound n ((n : ℤ) - w) = n - w := by
  rw [pyBound]
  split <;> omega

lemma pyBound_negNat (n w : ℕ) (h : w ≤ n) (hw : 1 ≤ w) :
    pyBound n (-(w : ℤ)) = n - w := by
  rw [pyBound]
  split <;> omega

lemma slice_rows {α : Type} (A : Mat α) (r0 r1 c0 c1 : ℤ) :
    (A.slice r0 r1 c0 c1).rows = pyBound A.rows r1 - pyBound A.rows r0 := rfl

lemma slice_cols {α : Type} (A : Mat α) (r0 r1 c0 c1 : ℤ) :
    (A.slice r0 r1 c0 c1).cols = pyBound A.cols c1 - pyBound A.cols c0 := rfl

lemma slice_entry {α : Type} (A : Mat α) (r0 r1 c0 c1 : ℤ) (i j : ℕ) :
    (A.slice r0 r1 c0 c1).entry i j =
      A.entry (pyBound A.rows r0 + i) (pyBound A.cols c0 + j) := rfl

/-- C2: for a valid odd window `2w+1` with `2w` smaller than both grid
dimensions, the three outputs of `visibility2d` and their common mask all
have shape `(R-2w, C-2w)`, and the output mask is the input mask trimmed by
`w` cells on every side. -/
theorem visibility2d_shape (v : Mat ℚ) (m : Mat Bool) (w : ℕ) (dh : ℚ)
    (hw : 1 ≤ w) (hr : 2 * w < v.rows) (hc : 2 * w < v.cols)
    (hmr : m.rows = v.rows) (hmc : m.cols = v.cols) :
    ((visibility2d v m (2 * w + 1) dh).vtot.rows = v.rows - 2 * w ∧
     (visibility2d v m (2 * w + 1) dh).vtot.cols = v.cols - 2 * w) ∧
    ((visibility2d v m (2 * w + 1) dh).vstd.rows = v.rows - 2 * w ∧
     (visibility2d v m (2 * w + 1) dh).vstd.cols = v.cols - 2 * w) ∧
    ((visibility2d v m (2 * w + 1) dh).vsum.rows = v.rows - 2 * w ∧
     (visibility2d v m (2 * w + 1) dh).vsum.cols = v.cols - 2 * w) ∧
    ((visibility2d v m (2 * w + 1) dh).outMask.rows = v.rows - 2 * w ∧
     (visibility2d v m (2 * w + 1) dh).outMask.cols = v.cols - 2 * w) ∧
    (∀ i j, (visibility2d v m (2 * w + 1) dh).outMask.entry i j =
      m.entry (w + i) (w + j)) := by
  have hw2 : (2 * w + 1) / 2 = w := by omega
  have h1 : pyBound v.rows (w : ℤ) = w := pyBound_lo _ _ (by omega)
  have h2 : pyBound v.rows ((v.rows : ℤ) - w) = v.rows - w :=
    pyBound_hi _ _ (by omega)
  have h3 : pyBound v.cols (w : ℤ) = w := pyBound_lo _ _ (by omega)
  have h4 : pyBound v.cols ((v.cols : ℤ) - w) = v.cols - w :=
    pyBound_hi _ _ (by omega)
  have h5 : pyBound m.rows (w : ℤ) = w := by rw [hmr]; exact h1
  have h6 : pyBound m.rows (-(w : ℤ)) = v.rows - w := by
    rw [hmr]; exact pyBound_negNat _ _ (by omega) hw
  have h7 : pyBound m.cols (w : ℤ) = w := by rw [hmc]; exact h3
  have h8 : pyBound m.cols (-(w : ℤ)) = v.cols - w := by
    rw [hmc]; exact pyBound_negNat _ _ (by omega) hw
  simp only [visibility2d, hw2, slice_rows, slice_cols, slice_entry,
    vtotFull, vstdFull, vsumFull, fillMasked, h1, h2, h3, h4, h5, h6, h7, h8]
  refine ⟨⟨by omega, by omega⟩, ⟨by omega, by omega⟩, ⟨by omega, by omega⟩,
    ⟨by omega, by omega⟩, fun i j => by trivial⟩

/-- Witness for `visibility2d_shape`: a concrete 3×3 grid with `w = 1`. -/
theorem visibility2d_shape_witness :
    ((visibility2d ⟨3, 3, fun i j => (i : ℚ) + j⟩ ⟨3, 3, fun _ _ => false⟩
        (2 * 1 + 1) 0).vtot.rows = 3 - 2 * 1 ∧
     (visibility2d ⟨3, 3, fun i j => (i : ℚ) + j⟩ ⟨3, 3, fun _ _ => false⟩
        (2 * 1 + 1) 0).vtot.cols = 3 - 2 * 1) ∧
    ((visibility2d ⟨3, 3, fun i j => (i : ℚ) + j⟩ ⟨3, 3, fun _ _ => false⟩
        (2 * 1 + 1) 0).vstd.rows = 3 - 2 * 1 ∧
     (visibility2d ⟨3, 3, fun i j => (i : ℚ) + j⟩ ⟨3, 3, fun _ _ => false⟩
        (2 * 1 + 1) 0).vstd.cols = 3 - 2 * 1) ∧
    ((visibility2d ⟨3, 3, fun i j => (i : ℚ) + j⟩ ⟨3, 3, fun _ _ => false⟩
        (2 * 1 + 1) 0).vsum.rows = 3 - 2 * 1 ∧
     (visibility2d ⟨3, 3, fun i j => (i : ℚ) + j⟩ ⟨3, 3, fun _ _ => false⟩
        (2 * 1 + 1) 0).vsum.cols = 3 - 2 * 1) ∧
    ((visibility2d ⟨3, 3, fun i j => (i : ℚ) + j⟩ ⟨3, 3, fun _ _ => false⟩
        (2 * 1 + 1) 0).outMask.rows = 3 - 2 * 1 ∧
     (visibility2d ⟨3, 3, fun i j => (i : ℚ) + j⟩ ⟨3, 3, fun _ _ => false⟩
        (2 * 1 + 1) 0).outMask.cols = 3 - 2 * 1) ∧
    (∀ i j, (visibility2d ⟨3, 3, fun i j => (i : ℚ) + j⟩ ⟨3, 3, fun _ _ => false⟩
        (2 * 1 + 1) 0).outMask.entry i j =
      (⟨3, 3, fun _ _ => false⟩ : Mat Bool).entry (1 + i) (1 + j)) :=
  visibility2d_shape ⟨3, 3, fun i j => (i : ℚ) + j⟩ ⟨3, 3, fun _ _ => false⟩ 1 0
    (by decide) (by decide) (by decide) rfl rfl

/-- C9 (amended): `visibility2d` performs no shape validation.  When the
window is too large for the grid (no interior rows remain) it does not raise
any error: it returns normally, with outputs whose row count is 0. -/
theorem visibility2d_no_shape_check (v : Mat ℚ) (m : Mat Bool) (wsize : ℕ)
    (dh : ℚ) (h : v.rows ≤ 2 * (wsize / 2)) :
    (visibility2d v m wsize dh).vtot.rows = 0 ∧
    (visibility2d v m wsize dh).vstd.rows = 0 ∧
    (visibility2d v m wsize dh).vsum.rows = 0 := by
  have key : pyBound v.rows ((v.rows : ℤ) - (wsize / 2 : ℕ)) ≤
      pyBound v.rows ((wsize / 2 : ℕ) : ℤ) := by
    rw [pyBound, pyBound]
    split <;> split <;> omega
  simp only [visibility2d, slice_rows, vtotFull, vstdFull, vsumFull,
    fillMasked]
  omega

/-- Witness for `visibility2d_no_shape_check` on a 2×2 grid, window 3. -/
theorem visibility2d_no_shape_check_witness :
    (visibility2d ⟨2, 2, fun _ _ => 1⟩ ⟨2, 2, fun _ _ => false⟩ 3 0).vtot.rows
      = 0 ∧
    (visibility2d ⟨2, 2, fun _ _ => 1⟩ ⟨2, 2, fun _ _ => false⟩ 3 0).vstd.rows
      = 0 ∧
    (visibility2d ⟨2, 2, fun _ _ => 1⟩ ⟨2, 2, fun _ _ => false⟩ 3 0).vsum.rows
      = 0 :=
  visibility2d_no_shape_check ⟨2, 2, fun _ _ => 1⟩ ⟨2, 2, fun _ _ => false⟩ 3 0
    (by decide)

/-- C9 counterexample: on a 2×2 grid with `window_size = 3` (no interior
cells) `visibility2d` does not fail fast: it returns output grids — empty
0×0 arrays — instead of producing no output. -/
theorem visibility2d_no_shape_check_cex :
    (visibility2d ⟨2, 2, fun _ _ => 0⟩ ⟨2, 2, fun _ _ => false⟩ 3 0).vtot.rows
      = 0 ∧
    (visibility2d ⟨2, 2, fun _ _ => 0⟩ ⟨2, 2, fun _ _ => false⟩ 3 0).vtot.cols
      = 0 := by
  constructor <;> rfl

/-! ## Entry extraction through the border trim -/

lemma visibility2d_vtot_entry (v : Mat ℚ) (m : Mat Bool) (wsize : ℕ) (dh : ℚ)
    (i j : ℕ) (hr : wsize / 2 ≤ v.rows) (hc : wsize / 2 ≤ v.cols) :
    (visibility2d v m wsize dh).vtot.entry i j =
      ∑ k, dirCounts (fillMasked v m (maskedMean v m)) wsize dh
        (wsize / 2 + i) (wsize / 2 + j) k := by
  simp only [visibility2d, slice_entry, vtotFull, fillMasked]
  rw [pyBound_lo _ _ hr, pyBound_lo _ _ hc]

lemma visibility2d_vstd_entry (v : Mat ℚ) (m : Mat Bool) (wsize : ℕ) (dh : ℚ)
    (i j : ℕ) (hr : wsize / 2 ≤ v.rows) (hc : wsize / 2 ≤ v.cols) :
    (visibility2d v m wsize dh).vstd.entry i j =
      std8 (dirCounts (fillMasked v m (maskedMean v m)) wsize dh
        (wsize / 2 + i) (wsize / 2 + j)) := by
  simp only [visibility2d, slice_entry, vstdFull, fillMasked]
  rw [pyBound_lo _ _ hr, pyBound_lo _ _ hc]

/-! ## Window size 3 (claims C10 and C4) -/

lemma visible1_wsize3 (dat : List ℚ) (dh : ℚ) : visible1 dat 3 2 dh = 1 := by
  rw [visible1, if_neg]
  rintro ⟨h, -⟩
  norm_num at h

lemma visible2_cp2 (dat : List ℚ) (dh : ℚ) : visible2 dat 2 dh = 0 := by
  rw [visible2, if_neg]
  rintro ⟨h, -⟩
  omega

lemma dirCounts_wsize3 (d : Mat ℚ) (dh : ℚ) (i j : ℕ)
    (hi1 : 1 ≤ i) (hi2 : i < d.rows - 1) (hj1 : 1 ≤ j) (hj2 : j < d.cols - 1) :
    dirCounts d 3 dh i j = ![1, 0, 1, 0, 1, 0, 1, 0] := by
  funext k
  fin_cases k <;>
    simp [dirCounts, vnMat, vsMat, veMat, vwMat, vd1Mat, vd2Mat, vd3Mat,
      vd4Mat, visible1_wsize3, visible2_cp2, hi1, hi2, hj1, hj2,
      (by omega : j < d.cols), (by omega : i < d.rows)]

lemma vec8_val5 (a b : ℚ) : (![a, b, a, b, a, b, a, b] : Fin 8 → ℚ) 5 = b := rfl

lemma vec8_val6 (a b : ℚ) : (![a, b, a, b, a, b, a, b] : Fin 8 → ℚ) 6 = a := rfl

lemma vec8_val7 (a b : ℚ) : (![a, b, a, b, a, b, a, b] : Fin 8 → ℚ) 7 = b := rfl

lemma var8_pattern_w3 : var8 ![1, 0, 1, 0, 1, 0, 1, 0] = 2 / 7 := by
  simp [var8, mean8, Fin.sum_univ_eight, vec8_val5, vec8_val6, vec8_val7]
  norm_num

/-- C10: for `window_size = 3` (`cp = 2`, window of 3 cells) the per-ray
counts are data-independent: `__visible1` always returns 1 (its guard
`cp < nr-1` is false) and `__visible2` always returns 0 (its guard `cp > 2`
is false); hence `visibility2d` returns the constant 4 as total visibility
and the constant `sqrt(2/7)` as standard deviation at every output cell. -/
theorem visibility2d_wsize3_constant (v : Mat ℚ) (m : Mat Bool) (dh : ℚ)
    (i j : ℕ) (hr : 2 < v.rows) (hc : 2 < v.cols)
    (hi : i < v.rows - 2) (hj : j < v.cols - 2) :
    (∀ dat dh2, visible1 dat 3 2 dh2 = 1) ∧
    (∀ dat dh2, visible2 dat 2 dh2 = 0) ∧
    (visibility2d v m 3 dh).vtot.entry i j = 4 ∧
    (visibility2d v m 3 dh).vstd.entry i j = Real.sqrt (2 / 7) := by
  have hd : (fillMasked v m (maskedMean v m)).rows = v.rows := rfl
  have hd2 : (fillMasked v m (maskedMean v m)).cols = v.cols := rfl
  have hdir : dirCounts (fillMasked v m (maskedMean v m)) 3 dh
      (3 / 2 + i) (3 / 2 + j) = ![1, 0, 1, 0, 1, 0, 1, 0] := by
    refine dirCounts_wsize3 _ dh _ _ (by omega) (by omega) (by omega) (by omega)
  refine ⟨visible1_wsize3, visible2_cp2, ?_, ?_⟩
  · rw [visibility2d_vtot_entry v m 3 dh i j (by omega) (by omega), hdir]
    simp [Fin.sum_univ_eight, vec8_val5, vec8_val6, vec8_val7]
    norm_num
  · rw [visibility2d_vstd_entry v m 3 dh i j (by omega) (by omega), hdir,
      std8, var8_pattern_w3]
    norm_num

/-- Witness for `visibility2d_wsize3_constant` on a concrete 3×3 grid. -/
theorem visibility2d_wsize3_constant_witness :
    (∀ dat dh2, visible1 dat 3 2 dh2 = 1) ∧
    (∀ dat dh2, visible2 dat 2 dh2 = 0) ∧
    (visibility2d ⟨3, 3, fun i j => (i : ℚ) * j⟩ ⟨3, 3, fun _ _ => false⟩
      3 0).vtot.entry 0 0 = 4 ∧
    (visibility2d ⟨3, 3, fun i j => (i : ℚ) * j⟩ ⟨3, 3, fun _ _ => false⟩
      3 0).vstd.entry 0 0 = Real.sqrt (2 / 7) :=
  visibility2d_wsize3_constant ⟨3, 3, fun i j => (i : ℚ) * j⟩
    ⟨3, 3, fun _ _ => false⟩ 0 0 0 (by decide) (by decide) (by decide)
    (by decide)

/-- C4 (amended): on the 7×7 grid `value[i][j] = i` with `window_size = 3`
and `height_offset = 0`, every interior cell's north-ray count (`vn`, from
`__visible1`) equals 1 and its south-ray count (`vs`, from `__visible2`)
equals 0 — not 1: at window size 3 both sweep guards fail whatever the
data. -/
theorem slope7_north_south (i j : ℕ) (hi1 : 1 ≤ i) (hi2 : i ≤ 5)
    (hj1 : 1 ≤ j) (hj2 : j ≤ 5) :
    (vnMat (fillMasked ⟨7, 7, fun a _ => (a : ℚ)⟩ ⟨7, 7, fun _ _ => false⟩
        (maskedMean ⟨7, 7, fun a _ => (a : ℚ)⟩ ⟨7, 7, fun _ _ => false⟩))
      3 0).entry i j = 1 ∧
    (vsMat (fillMasked ⟨7, 7, fun a _ => (a : ℚ)⟩ ⟨7, 7, fun _ _ => false⟩
        (maskedMean ⟨7, 7, fun a _ => (a : ℚ)⟩ ⟨7, 7, fun _ _ => false⟩))
      3 0).entry i j = 0 := by
  constructor
  · simp only [vnMat, fillMasked]
    rw [if_pos ⟨by omega, by omega, by omega⟩, visible1_wsize3]
    norm_num
  · simp only [vsMat, fillMasked]
    rw [if_pos ⟨by omega, by omega, by omega⟩, visible2_cp2]
    norm_num

/-- Witness for `slope7_north_south` at the interior cell (1,1). -/
theorem slope7_north_south_witness :
    (vnMat (fillMasked ⟨7, 7, fun a _ => (a : ℚ)⟩ ⟨7, 7, fun _ _ => false⟩
        (maskedMean ⟨7, 7, fun a _ => (a : ℚ)⟩ ⟨7, 7, fun _ _ => false⟩))
      3 0).entry 1 1 = 1 ∧
    (vsMat (fillMasked ⟨7, 7, fun a _ => (a : ℚ)⟩ ⟨7, 7, fun _ _ => false⟩
        (maskedMean ⟨7, 7, fun a _ => (a : ℚ)⟩ ⟨7, 7, fun _ _ => false⟩))
      3 0).entry 1 1 = 0 :=
  slope7_north_south 1 1 (by decide) (by decide) (by decide) (by decide)

/-- C4 counterexample: at the interior cell (1,1) of the slope grid the
south-ray count is 0, not 1 as the claim states. -/
theorem slope7_north_south_cex :
    (vsMat (fillMasked ⟨7, 7, fun a _ => (a : ℚ)⟩ ⟨7, 7, fun _ _ => false⟩
        (maskedMean ⟨7, 7, fun a _ => (a : ℚ)⟩ ⟨7, 7, fun _ _ => false⟩))
      3 0).entry 2 2 ≠ 1 ∧
    (vsMat (fillMasked ⟨7, 7, fun a _ => (a : ℚ)⟩ ⟨7, 7, fun _ _ => false⟩
        (maskedMean ⟨7, 7, fun a _ => (a : ℚ)⟩ ⟨7, 7, fun _ _ => false⟩))
      3 0).entry 2 2 = 0 := by
  have h : (vsMat (fillMasked ⟨7, 7, fun a _ => (a : ℚ)⟩
      ⟨7, 7, fun _ _ => false⟩
      (maskedMean ⟨7, 7, fun a _ => (a : ℚ)⟩ ⟨7, 7, fun _ _ => false⟩))
      3 0).entry 2 2 = 0 := by
    simp only [vsMat, fillMasked]
    rw [if_pos ⟨by omega, by omega, by omega⟩, visible2_cp2]
    norm_num
  exact ⟨by rw [h]; norm_num, h⟩

/-- C5 (amended): `visibility2d` does mutate caller-owned input:
`data = data.data` (cooper.py 362) aliases the caller's underlying values
array — it is a view, not a copy — and `data[mask] = mean` (line 363) writes
the global unmasked mean into every masked cell of it.  Unmasked cells are
left unchanged (so a mask-free input is bit-for-bit unchanged), and the mask
array itself is never written. -/
theorem visibility2d_mutates_masked_only (v : Mat ℚ) (m : Mat Bool)
    (wsize : ℕ) (dh : ℚ) (i j : ℕ) :
    (visibility2d v m wsize dh).dataAfter.entry i j =
      if m.entry i j then maskedMean v m else v.entry i j := rfl

/-- C5 counterexample: a 1×2 grid holding `[0, 2]` with the first cell
masked.  After the call the caller's buffer holds the unmasked mean 2 at the
cell that originally held 0 — the input is not bit-for-bit unchanged. -/
theorem visibility2d_mutates_cex :
    (visibility2d ⟨1, 2, fun _ j => if j = 0 then (0 : ℚ) else 2⟩
        ⟨1, 2, fun _ j => decide (j = 0)⟩ 3 0).dataAfter.entry 0 0 = 2 ∧
    (⟨1, 2, fun _ j => if j = 0 then (0 : ℚ) else 2⟩ : Mat ℚ).entry 0 0
      = 0 := by
  constructor
  · simp [visibility2d, fillMasked, maskedMean, Finset.sum_range_succ]
  · norm_num

/-! ## Constant (flat) grids (claim C3) -/

lemma colWindow_const (d : Mat ℚ) (c : ℚ) (hd : ∀ a b, d.entry a b = c)
    (w2 i j : ℕ) : colWindow d w2 i j = List.replicate (2 * w2 + 1) c := by
  calc (List.range (2 * w2 + 1)).map (fun k => d.entry (i - w2 + k) j)
      = (List.range (2 * w2 + 1)).map (fun _ => c) :=
        List.map_congr_left fun k _ => hd _ _
    _ = List.replicate (2 * w2 + 1) c := by
        rw [List.map_const', List.length_range]

lemma rowWindow_const (d : Mat ℚ) (c : ℚ) (hd : ∀ a b, d.entry a b = c)
    (w2 i j : ℕ) : rowWindow d w2 i j = List.replicate (2 * w2 + 1) c := by
  calc (List.range (2 * w2 + 1)).map (fun k => d.entry i (j - w2 + k))
      = (List.range (2 * w2 + 1)).map (fun _ => c) :=
        List.map_congr_left fun k _ => hd _ _
    _ = List.replicate (2 * w2 + 1) c := by
        rw [List.map_const', List.length_range]

lemma diag1Window_const (d : Mat ℚ) (c : ℚ) (hd : ∀ a b, d.entry a b = c)
    (w2 i j : ℕ) : diag1Window d w2 i j = List.replicate (2 * w2 + 1) c := by
  calc (List.range (2 * w2 + 1)).map (fun k => d.entry (i - w2 + k) (j - w2 + k))
      = (List.range (2 * w2 + 1)).map (fun _ => c) :=
        List.map_congr_left fun k _ => hd _ _
    _ = List.replicate (2 * w2 + 1) c := by
        rw [List.map_const', List.length_range]

lemma diag2Window_const (d : Mat ℚ) (c : ℚ) (hd : ∀ a b, d.entry a b = c)
    (w2 i j : ℕ) : diag2Window d w2 i j = List.replicate (2 * w2 + 1) c := by
  calc (List.range (2 * w2 + 1)).map (fun k => d.entry (i + w2 - k) (j - w2 + k))
      = (List.range (2 * w2 + 1)).map (fun _ => c) :=
        List.map_congr_left fun k _ => hd _ _
    _ = List.replicate (2 * w2 + 1) c := by
        rw [List.map_const', List.length_range]

lemma maxVis1_eq (w : ℕ) : maxVis1 w = maxVis2 w + 1 := by
  by_cases h : 2 ≤ w <;> simp [maxVis1, maxVis2, h]

/-- On a constant grid every one of the eight directional counts at an
interior cell equals the maximal value of its ray function. -/
lemma dirCounts_const (d : Mat ℚ) (c : ℚ) (hd : ∀ a b, d.entry a b = c)
    (w i j : ℕ) (hi1 : w ≤ i) (hi2 : i < d.rows - w)
    (hj1 : w ≤ j) (hj2 : j < d.cols - w) :
    dirCounts d (2 * w + 1) 0 i j =
      ![(maxVis1 w : ℚ), (maxVis2 w : ℚ), (maxVis1 w : ℚ), (maxVis2 w : ℚ),
        (maxVis1 w : ℚ), (maxVis2 w : ℚ), (maxVis1 w : ℚ), (maxVis2 w : ℚ)] := by
  have hw2 : (2 * w + 1) / 2 = w := by omega
  funext k
  fin_cases k <;>
    simp [dirCounts, vnMat, vsMat, veMat, vwMat, vd1Mat, vd2Mat, vd3Mat,
      vd4Mat, hw2, colWindow_const d c hd, rowWindow_const d c hd,
      diag1Window_const d c hd, diag2Window_const d c hd,
      visible1_const, visible2_const, hi1, hi2, hj1, hj2,
      (by omega : i < d.rows), (by omega : j < d.cols)]

lemma var8_alternating (b : ℚ) :
    var8 ![b + 1, b, b + 1, b, b + 1, b, b + 1, b] = 2 / 7 := by
  simp [var8, mean8, Fin.sum_univ_eight, vec8_val5, vec8_val6, vec8_val7]
  ring_nf

/-- C3 (amended): on a constant grid with `height_offset = 0` every ray of
the sweep attains the largest count its function can produce on any window
(`maxVis1 w` forward, `maxVis2 w` backward) — all points the loops examine
are visible, since all angles tie.  But the forward baseline exceeds the
backward baseline by exactly one, so the eight directional counts are not
equal and the `ddof=1` standard deviation output is the constant
`sqrt(2/7)`, not 0. -/
theorem visibility2d_flat (c : ℚ) (nr nc w : ℕ) (m : Mat Bool) (i j : ℕ)
    (hw : 1 ≤ w) (hr : 2 * w < nr) (hc2 : 2 * w < nc)
    (hi : i < nr - 2 * w) (hj : j < nc - 2 * w)
    (hm : ∀ a b, m.entry a b = false) :
    (∀ dat dh2, visible1 dat (2 * w + 1) (w + 1) dh2 ≤ maxVis1 w) ∧
    (∀ dat dh2, visible2 dat (w + 1) dh2 ≤ maxVis2 w) ∧
    dirCounts (fillMasked ⟨nr, nc, fun _ _ => c⟩ m
        (maskedMean ⟨nr, nc, fun _ _ => c⟩ m)) (2 * w + 1) 0 (w + i) (w + j) =
      ![(maxVis1 w : ℚ), (maxVis2 w : ℚ), (maxVis1 w : ℚ), (maxVis2 w : ℚ),
        (maxVis1 w : ℚ), (maxVis2 w : ℚ), (maxVis1 w : ℚ), (maxVis2 w : ℚ)] ∧
    (visibility2d ⟨nr, nc, fun _ _ => c⟩ m (2 * w + 1) 0).vstd.entry i j =
      Real.sqrt (2 / 7) := by
  have hd : ∀ a b, (fillMasked ⟨nr, nc, fun _ _ => c⟩ m
      (maskedMean ⟨nr, nc, fun _ _ => c⟩ m)).entry a b = c := by
    intro a b
    simp [fillMasked, hm a b]
  have hw2 : (2 * w + 1) / 2 = w := by omega
  have hdir := dirCounts_const _ c hd w (w + i) (w + j)
    (by omega) (show w + i < nr - w by omega)
    (by omega) (show w + j < nc - w by omega)
  refine ⟨fun dat dh2 => visible1_le dat dh2 w,
    fun dat dh2 => visible2_le dat dh2 w, hdir, ?_⟩
  rw [visibility2d_vstd_entry _ _ _ _ i j (show (2 * w + 1) / 2 ≤ nr by omega)
    (show (2 * w + 1) / 2 ≤ nc by omega), hw2, hdir]
  have hcast : ((maxVis1 w : ℕ) : ℚ) = ((maxVis2 w : ℕ) : ℚ) + 1 := by
    exact_mod_cast congrArg (Nat.cast : ℕ → ℚ) (maxVis1_eq w)
  rw [std8, hcast, var8_alternating]
  norm_num

/-- Witness for `visibility2d_flat` on a concrete flat 3×3 grid, `w = 1`. -/
theorem visibility2d_flat_witness :
    (∀ dat dh2, visible1 dat (2 * 1 + 1) (1 + 1) dh2 ≤ maxVis1 1) ∧
    (∀ dat dh2, visible2 dat (1 + 1) dh2 ≤ maxVis2 1) ∧
    dirCounts (fillMasked ⟨3, 3, fun _ _ => (5 : ℚ)⟩ ⟨3, 3, fun _ _ => false⟩
        (maskedMean ⟨3, 3, fun _ _ => (5 : ℚ)⟩ ⟨3, 3, fun _ _ => false⟩))
        (2 * 1 + 1) 0 (1 + 0) (1 + 0) =
      ![(maxVis1 1 : ℚ), (maxVis2 1 : ℚ), (maxVis1 1 : ℚ), (maxVis2 1 : ℚ),
        (maxVis1 1 : ℚ), (maxVis2 1 : ℚ), (maxVis1 1 : ℚ), (maxVis2 1 : ℚ)] ∧
    (visibility2d ⟨3, 3, fun _ _ => (5 : ℚ)⟩ ⟨3, 3, fun _ _ => false⟩
        (2 * 1 + 1) 0).vstd.entry 0 0 = Real.sqrt (2 / 7) :=
  visibility2d_flat 5 3 3 1 ⟨3, 3, fun _ _ => false⟩ 0 0 (by decide)
    (by decide) (by decide) (by decide) (by decide) (fun _ _ => rfl)

/-- C3 counterexample: on the flat 3×3 grid the standard-deviation output at
the output cell (0,0) is `sqrt(2/7) > 0`, not 0 as the claim states. -/
theorem visibility2d_flat_cex :
    (visibility2d ⟨3, 3, fun _ _ => (5 : ℚ)⟩ ⟨3, 3, fun _ _ => false⟩ 3
      0).vstd.entry 0 0 ≠ 0 := by
  have hd : ∀ a b, (fillMasked ⟨3, 3, fun _ _ => (5 : ℚ)⟩
      ⟨3, 3, fun _ _ => false⟩
      (maskedMean ⟨3, 3, fun _ _ => (5 : ℚ)⟩ ⟨3, 3, fun _ _ => false⟩)).entry
        a b = 5 := by
    intro a b
    simp [fillMasked]
  have hdir := dirCounts_const _ 5 hd 1 1 1
    (by omega) (show 1 < 3 - 1 by omega) (by omega) (show 1 < 3 - 1 by omega)
  have h : (visibility2d ⟨3, 3, fun _ _ => (5 : ℚ)⟩ ⟨3, 3, fun _ _ => false⟩ 3
      0).vstd.entry 0 0 = Real.sqrt (2 / 7) := by
    rw [visibility2d_vstd_entry _ _ _ _ 0 0 (show 3 / 2 ≤ 3 by omega)
      (show 3 / 2 ≤ 3 by omega)]
    norm_num
    rw [show (2 * 1 + 1 : ℕ) = 3 from rfl] at hdir
    rw [show (1 : ℕ) = 3 / 2 from rfl] at hdir
    rw [hdir]
    have hcast : ((maxVis1 (3 / 2) : ℕ) : ℚ) = ((maxVis2 (3 / 2) : ℕ) : ℚ) + 1 := by
      exact_mod_cast congrArg (Nat.cast : ℕ → ℚ) (maxVis1_eq (3 / 2))
    rw [std8, hcast, var8_alternating]
    norm_num
  rw [h]
  exact (Real.sqrt_pos.2 (by norm_num)).ne'

/-! ## The vertical-derivative engine `vertical` (cooper.py 640-685) -/

noncomputable def insertR (x : ℝ) : List ℝ → List ℝ
  | [] => [x]
  | y :: ys => if x ≤ y then x :: y :: ys else y :: insertR x ys

noncomputable def sortR : List ℝ → List ℝ
  | [] => []
  | x :: xs => insertR x (sortR xs)

/-- Median in numpy's convention: middle element of the sorted list for odd
length, average of the two middle elements for even length; 0 for the empty
list (where numpy would produce NaN). -/
noncomputable def medianR (l : List ℝ) : ℝ :=
  let s := sortR l
  if s.length % 2 = 1 then s.getD (s.length / 2) 0
  else (s.getD (s.length / 2 - 1) 0 + s.getD (s.length / 2) 0) / 2

/-- The unmasked entries of a grid in row-major order (`np.ma.median` and the
masked min/max only look at unmasked cells; none of them depends on the
order). -/
def unmaskedList (v : Mat ℝ) (m : Mat Bool) : List ℝ :=
  (List.range v.rows).flatMap fun i =>
    (List.range v.cols).filterMap fun j =>
      if m.entry i j then none else some (v.entry i j)

/-- Index clamping performed by numpy edge padding. -/
def clampIdx (n : ℕ) (x : ℤ) : ℕ := (min ((n : ℤ) - 1) (max 0 x)).toNat

/-- Model of `np.pad(z, [[rd, rd2], [cd, cd2]], 'edge')` (cooper.py 667): each border
cell replicates the nearest edge cell of `z`. -/
noncomputable def padEdge (A : Mat ℝ) (rd rd2 cd cd2 : ℕ) : Mat ℝ :=
  ⟨rd + A.rows + rd2, cd + A.cols + cd2,
   fun i j => A.entry (clampIdx A.rows ((i : ℤ) - rd))
     (clampIdx A.cols ((j : ℤ) - cd))⟩

/-- One factor of the forward 2-D discrete Fourier kernel. -/
noncomputable def dftKernel (n i k : ℕ) : ℂ :=
  Complex.exp (-2 * Real.pi * Complex.I * ((i * k : ℕ) : ℂ) / (n : ℂ))

/-- One factor of the inverse 2-D discrete Fourier kernel. -/
noncomputable def idftKernel (n i k : ℕ) : ℂ :=
  Complex.exp (2 * Real.pi * Complex.I * ((i * k : ℕ) : ℂ) / (n : ℂ))

/-- Model of `np.fft.fft2`. -/
noncomputable def dft2 (A : Mat ℂ) : Mat ℂ :=
  ⟨A.rows, A.cols, fun i j =>
    ∑ k in Finset.range A.rows, ∑ l in Finset.range A.cols,
      A.entry k l * dftKernel A.rows i k * dftKernel A.cols j l⟩

/-- Model of `np.fft.ifft2`. -/
noncomputable def idft2 (A : Mat ℂ) : Mat ℂ :=
  ⟨A.rows, A.cols, fun i j =>
    (∑ k in Finset.range A.rows, ∑ l in Finset.range A.cols,
      A.entry k l * idftKernel A.rows i k * idftKernel A.cols j l) /
      ((A.rows : ℂ) * (A.cols : ℂ))⟩

/-- Model of `np.fft.fftshift` on both axes: a roll by `n//2`. -/
def fftshift {α : Type} (A : Mat α) : Mat α :=
  ⟨A.rows, A.cols, fun i j =>
    A.entry ((i + (A.rows - A.rows / 2)) % A.rows)
      ((j + (A.cols - A.cols / 2)) % A.cols)⟩

/-- Function `nextpow2(n) = ceil(log2(n))` (cooper.py 640-643). -/
def nextpow2 (n : ℕ) : ℕ := Nat.clog 2 n

/-- Scale `wn = 2.0*np.pi/(xint*(npts-1))` (cooper.py 676). -/
noncomputable def vertWn (npts : ℕ) (xint : ℝ) : ℝ :=
  2 * Real.pi / (xint * ((npts : ℝ) - 1))

/-- The radial frequency magnitude `freq = sqrt(freqx*freqx+freqy*freqy)` of
bin `(i, j)` (cooper.py 678-682), with `cx = cy = npts/2+1` and
`freqx = (i+1-cx)*wn`, `freqy = (j+1-cy)*wn`. -/
noncomputable def vertFreq (npts : ℕ) (xint : ℝ) (i j : ℕ) : ℝ :=
  Real.sqrt ((((i : ℝ) + 1 - ((npts : ℝ) / 2 + 1)) * vertWn npts xint) *
      (((i : ℝ) + 1 - ((npts : ℝ) / 2 + 1)) * vertWn npts xint) +
    (((j : ℝ) + 1 - ((npts : ℝ) / 2 + 1)) * vertWn npts xint) *
      (((j : ℝ) + 1 - ((npts : ℝ) / 2 + 1)) * vertWn npts xint))

/-- The weighting loop `fz[i, j] = f[i, j]*freq` (cooper.py 678-683): every
bin of the shifted spectrum is multiplied — never divided — by its radial
frequency magnitude. -/
noncomputable def vertWeight (npts : ℕ) (xint : ℝ) (F : Mat ℂ) : Mat ℂ :=
  ⟨npts, npts, fun i j => F.entry i j * (vertFreq npts xint i j : ℝ)⟩

/-- Field `z = data - np.ma.median(data)`, masked cells filled with 0
(cooper.py 650-652). -/
noncomputable def verticalZ (v : Mat ℝ) (m : Mat Bool) : Mat ℝ :=
  ⟨v.rows, v.cols, fun i j =>
    if m.entry i j then 0 else v.entry i j - medianR (unmaskedList v m)⟩

/-- The centered edge-replication padding of `z` to an `npts`-square, the odd
remainder going to the trailing side (cooper.py 658-667). -/
noncomputable def verticalPadded (v : Mat ℝ) (m : Mat Bool) (npts : ℕ) :
    Mat ℝ :=
  padEdge (verticalZ v m) ((npts - v.rows) / 2)
    (npts - (npts - v.rows) / 2 - v.rows) ((npts - v.cols) / 2)
    (npts - (npts - v.cols) / 2 - v.cols)

/-- Model of `vertical(data, npts, xint)` (cooper.py 646-685): median subtraction,
centered edge padding to an `npts`-square, forward FFT, shift, radial
frequency weighting, shift back, inverse FFT, real part, crop back to the
original extent `[rdiff:nr+rdiff, cdiff:nc+cdiff]`. -/
noncomputable def vertical (v : Mat ℝ) (m : Mat Bool) (npts : ℕ) (xint : ℝ) :
    Mat ℝ :=
  let rdiff := (npts - v.rows) / 2
  let cdiff := (npts - v.cols) / 2
  let data1 := verticalPadded v m npts
  let f := dft2 ⟨npts, npts, fun i j => ((data1.entry i j : ℝ) : ℂ)⟩
  let fz := vertWeight npts xint (fftshift f)
  let fzinv := idft2 (fftshift fz)
  ⟨v.rows, v.cols, fun i j => (fzinv.entry (rdiff + i) (cdiff + j)).re⟩

/-- C6: for `npts = 2^nextpow2(max(nr, nc))` — the padding size `vertical` is
called with — the output is a real-valued array of exactly the input's shape
`(nr, nc)`; the padded square has shape `npts × npts` and the crop
`[rdiff:nr+rdiff, cdiff:nc+cdiff]` stays inside it. -/
theorem vertical_shape (v : Mat ℝ) (m : Mat Bool) (xint : ℝ) :
    (vertical v m (2 ^ nextpow2 (max v.rows v.cols)) xint).rows = v.rows ∧
    (vertical v m (2 ^ nextpow2 (max v.rows v.cols)) xint).cols = v.cols ∧
    (verticalPadded v m (2 ^ nextpow2 (max v.rows v.cols))).rows =
      2 ^ nextpow2 (max v.rows v.cols) ∧
    (verticalPadded v m (2 ^ nextpow2 (max v.rows v.cols))).cols =
      2 ^ nextpow2 (max v.rows v.cols) ∧
    (2 ^ nextpow2 (max v.rows v.cols) - v.rows) / 2 + v.rows ≤
      2 ^ nextpow2 (max v.rows v.cols) ∧
    (2 ^ nextpow2 (max v.rows v.cols) - v.cols) / 2 + v.cols ≤
      2 ^ nextpow2 (max v.rows v.cols) := by
  have hmax : max v.rows v.cols ≤ 2 ^ nextpow2 (max v.rows v.cols) :=
    Nat.le_pow_clog (by norm_num) _
  have hr : v.rows ≤ 2 ^ nextpow2 (max v.rows v.cols) :=
    le_trans (le_max_left _ _) hmax
  have hc : v.cols ≤ 2 ^ nextpow2 (max v.rows v.cols) :=
    le_trans (le_max_right _ _) hmax
  refine ⟨rfl, rfl, ?_, ?_, by omega, by omega⟩
  · simp only [verticalPadded, padEdge, verticalZ]
    omega
  · simp only [verticalPadded, padEdge, verticalZ]
    omega

/-- C7: every FFT bin is multiplied (never divided) by its radial frequency
magnitude, and at the zero-frequency bin `(npts/2, npts/2)` the factor is
exactly 0, so the weighted zero-frequency bin is exactly 0 for every input
spectrum; the loop contains no division, hence no divide-by-zero. -/
theorem vertWeight_zero_bin (npts : ℕ) (xint : ℝ) (F : Mat ℂ)
    (he : npts % 2 = 0) :
    (∀ i j, (vertWeight npts xint F).entry i j =
      F.entry i j * ((vertFreq npts xint i j : ℝ) : ℂ)) ∧
    vertFreq npts xint (npts / 2) (npts / 2) = 0 ∧
    (vertWeight npts xint F).entry (npts / 2) (npts / 2) = 0 := by
  have hfx : ((npts / 2 : ℕ) : ℝ) + 1 - ((npts : ℝ) / 2 + 1) = 0 := by
    obtain ⟨t, rfl⟩ : ∃ t, npts = 2 * t := ⟨npts / 2, by omega⟩
    rw [show 2 * t / 2 = t by omega]
    push_cast
    ring
  have hfreq : vertFreq npts xint (npts / 2) (npts / 2) = 0 := by
    rw [vertFreq, hfx]
    simp
  refine ⟨fun i j => rfl, hfreq, ?_⟩
  show F.entry (npts / 2) (npts / 2) *
    ((vertFreq npts xint (npts / 2) (npts / 2) : ℝ) : ℂ) = 0
  rw [hfreq]
  simp

/-- Witness for `vertWeight_zero_bin` at `npts = 2`, `xint = 1`, a constant
spectrum. -/
theorem vertWeight_zero_bin_witness :
    (∀ i j, (vertWeight 2 1 ⟨2, 2, fun _ _ => 1⟩).entry i j =
      (⟨2, 2, fun _ _ => 1⟩ : Mat ℂ).entry i j *
        ((vertFreq 2 1 i j : ℝ) : ℂ)) ∧
    vertFreq 2 1 (2 / 2) (2 / 2) = 0 ∧
    (vertWeight 2 1 ⟨2, 2, fun _ _ => 1⟩).entry (2 / 2) (2 / 2) = 0 :=
  vertWeight_zero_bin 2 1 ⟨2, 2, fun _ _ => 1⟩ rfl

/-! ## The tilt engine `tilt1` (cooper.py 546-637) -/

noncomputable def listMin : List ℝ → ℝ
  | [] => 0
  | x :: xs => xs.foldl min x

noncomputable def listMax : List ℝ → ℝ
  | [] => 0
  | x :: xs => xs.foldl max x

/-- Midpoint fill `dm = 0.5*(dmin+dmax)` over the unmasked cells; `tilt1` writes it into
every masked cell of its input (cooper.py 582-585; the NaN/Inf fills on the
next two lines are vacuous in exact arithmetic). -/
noncomputable def tiltFill (v : Mat ℝ) (m : Mat Bool) : Mat ℝ :=
  ⟨v.rows, v.cols, fun i j =>
    if m.entry i j then
      (listMin (unmaskedList v m) + listMax (unmaskedList v m)) / 2
    else v.entry i j⟩

/-- Model of `si.convolve2d(A, ones(s,s)/s², 'valid')` (cooper.py 588-590): output
shrinks to `(nr-s+1, nc-s+1)`; with a constant kernel the flip of true
convolution is immaterial. -/
noncomputable def convValid (A : Mat ℝ) (s : ℕ) : Mat ℝ :=
  ⟨A.rows + 1 - s, A.cols + 1 - s, fun i j =>
    (∑ a in Finset.range s, ∑ b in Finset.range s, A.entry (i + a) (j + b)) /
      ((s : ℝ) * s)⟩

/-- Valid-mode convolution of the boolean mask with the same kernel
(cooper.py 591): the resulting float is nonzero — hence the cell is masked —
iff some masked cell lies in the window. -/
def maskValid (m : Mat Bool) (s : ℕ) : Mat Bool :=
  ⟨m.rows + 1 - s, m.cols + 1 - s, fun i j =>
    (List.range s).any fun a => (List.range s).any fun b =>
      m.entry (i + a) (j + b)⟩

/-- The data after the optional box smoothing (cooper.py 588-592). -/
noncomputable def tiltData (v : Mat ℝ) (m : Mat Bool) (s : ℕ) : Mat ℝ :=
  if 0 < s then convValid (tiltFill v m) s else tiltFill v m

/-- The mask after the optional box smoothing (cooper.py 588-592). -/
def tiltMask (m : Mat Bool) (s : ℕ) : Mat Bool :=
  if 0 < s then maskValid m s else m

/-- Model of `np.gradient` along axis 0 (rows): central differences in the interior,
one-sided differences at the first and last row (numpy needs at least 2 rows;
the degenerate 1-row case is mapped to 0). -/
noncomputable def gradRow (A : Mat ℝ) : Mat ℝ :=
  ⟨A.rows, A.cols, fun i j =>
    if A.rows ≤ 1 then 0
    else if i = 0 then A.entry 1 j - A.entry 0 j
    else if i = A.rows - 1 then A.entry i j - A.entry (i - 1) j
    else (A.entry (i + 1) j - A.entry (i - 1) j) / 2⟩

/-- Model of `np.gradient` along axis 1 (columns). -/
noncomputable def gradCol (A : Mat ℝ) : Mat ℝ :=
  ⟨A.rows, A.cols, fun i j =>
    if A.cols ≤ 1 then 0
    else if j = 0 then A.entry i 1 - A.entry i 0
    else if j = A.cols - 1 then A.entry i j - A.entry i (j - 1)
    else (A.entry i (j + 1) - A.entry i (j - 1)) / 2⟩

/-- Zero extension outside the array, for the boundary fill of
same-mode convolution. -/
noncomputable def zeroExtend (A : Mat ℝ) (r c : ℤ) : ℝ :=
  if 0 ≤ r ∧ r < (A.rows : ℤ) ∧ 0 ≤ c ∧ c < (A.cols : ℤ) then
    A.entry r.toNat c.toNat
  else 0

/-- Model of `si.convolve2d(A, ones(s,s)/s², 'same')` with the default zero fill
outside the array (cooper.py 620). -/
noncomputable def convSame (A : Mat ℝ) (s : ℕ) : Mat ℝ :=
  ⟨A.rows, A.cols, fun i j =>
    (∑ a in Finset.range s, ∑ b in Finset.range s,
      zeroExtend A ((i : ℤ) + ((s : ℤ) - 1) / 2 - a)
        ((j : ℤ) + ((s : ℤ) - 1) / 2 - b)) / ((s : ℝ) * s)⟩

/-- The five outputs of `tilt1`. -/
structure TiltResult where
  t1 : Mat ℝ
  th : Mat ℝ
  t2 : Mat ℝ
  ta : Mat ℝ
  tdx : Mat ℝ

/-- Model of `tilt1(data, azi, s)` (cooper.py 546-637): fill of masked cells with the
min/max midpoint, optional `s×s` box smoothing of data and mask, gradient,
total horizontal derivative, FFT vertical derivative with
`npts = 2^nextpow2(max(nr, nc))`, and the five outputs.  `th`'s entry
models `Re(arctanh(r+0j)) = log(|1+r|/|1-r|)/2` for the real ratio `r`
(`np.nan_to_num` is the identity in exact arithmetic, where `0/0 = 0`
already); the output mask bookkeeping (which output carries which mask) is
not modelled because the numeric entries do not depend on it. -/
noncomputable def tilt1 (v : Mat ℝ) (m : Mat Bool) (azi : ℝ) (s : ℕ) :
    TiltResult :=
  let d := tiltData v m s
  let dy := gradRow d
  let dx := gradCol d
  let dxtot : Mat ℝ := ⟨d.rows, d.cols, fun i j =>
    Real.sqrt (dx.entry i j * dx.entry i j + dy.entry i j * dy.entry i j)⟩
  let npts := 2 ^ nextpow2 (max d.rows d.cols)
  let dz := vertical d (tiltMask m s) npts 1
  let t1M : Mat ℝ := ⟨d.rows, d.cols, fun i j =>
    Real.arctan (dz.entry i j / dxtot.entry i j)⟩
  let thM : Mat ℝ := ⟨d.rows, d.cols, fun i j =>
    Real.log (|1 + dz.entry i j / dxtot.entry i j| /
      |1 - dz.entry i j / dxtot.entry i j|) / 2⟩
  let tdxM : Mat ℝ := ⟨d.rows, d.cols, fun i j =>
    Real.arctan (dxtot.entry i j / |dz.entry i j|)⟩
  let azr := azi * (Real.pi / 180)
  let dx1 : Mat ℝ := ⟨d.rows, d.cols, fun i j =>
    dx.entry i j * Real.cos azr + dy.entry i j * Real.sin azr⟩
  let dx2 : Mat ℝ := ⟨d.rows, d.cols, fun i j =>
    dx.entry i j * Real.cos (azr + Real.pi / 2) +
      dy.entry i j * Real.sin (azr + Real.pi / 2)⟩
  let taM : Mat ℝ := ⟨d.rows, d.cols, fun i j =>
    Real.arctan (dx1.entry i j /
      Real.sqrt (dx2.entry i j * dx2.entry i j +
        dz.entry i j * dz.entry i j))⟩
  let s2 := if s < 3 then 3 else s
  let ts := convSame t1M s2
  let dys := gradRow ts
  let dxs := gradCol ts
  let dzs := vertical ts ⟨ts.rows, ts.cols, fun _ _ => false⟩ npts 1
  let t2M : Mat ℝ := ⟨d.rows, d.cols, fun i j =>
    Real.arctan (dzs.entry i j /
      Real.sqrt (dxs.entry i j * dxs.entry i j +
        dys.entry i j * dys.entry i j))⟩
  ⟨t1M, thM, t2M, taM, tdxM⟩

/-- C8: the four arctan-based outputs of `tilt1` — `t1`, `tdx`, `ta`, `t2` —
lie in the open interval (-π/2, π/2) at every cell (in particular at every
unmasked cell, for every input grid, azimuth and smoothing size): each entry
is `arctan` of a real number, and in exact real arithmetic every quotient is
a real number (a zero denominator yields the quotient 0). -/
theorem tilt1_range (v : Mat ℝ) (m : Mat Bool) (azi : ℝ) (s : ℕ) (i j : ℕ) :
    (-(Real.pi / 2) < (tilt1 v m azi s).t1.entry i j ∧
      (tilt1 v m azi s).t1.entry i j < Real.pi / 2) ∧
    (-(Real.pi / 2) < (tilt1 v m azi s).tdx.entry i j ∧
      (tilt1 v m azi s).tdx.entry i j < Real.pi / 2) ∧
    (-(Real.pi / 2) < (tilt1 v m azi s).ta.entry i j ∧
      (tilt1 v m azi s).ta.entry i j < Real.pi / 2) ∧
    (-(Real.pi / 2) < (tilt1 v m azi s).t2.entry i j ∧
      (tilt1 v m azi s).t2.entry i j < Real.pi / 2) := by
  refine ⟨⟨?_, ?_⟩, ⟨?_, ?_⟩, ⟨?_, ?_⟩, ⟨?_, ?_⟩⟩ <;>
    first
      | exact Real.neg_pi_div_two_lt_arctan _
      | exact Real.arctan_lt_pi_div_two _
